import Mathlib

/-!
# Activation functions of `deep` (activation.go)

Shallow embedding of `src/activation.go`.

* `Mode` and `ActivationType` are Go `int` types; they are embedded as `Int`, so every
  theorem quantified over `Mode`/`ActivationType` covers in particular the 64-bit range.
* `Differentiable` is a Go interface with exactly four implementing struct types
  (`Sigmoid`, `Tanh`, `ReLU`, `Linear`), all of them empty structs.  An interface value is
  therefore determined by its dynamic type, which is embedded as a four-constructor
  inductive; the methods `F`/`Df` of an interface value dispatch on that tag.
* The bodies of `Logistic` and of the methods `F`/`Df` are written once, over any type `α`
  that has the operations the Go code uses (`0`, `1`, `2`, `-`, `+`, `*`, `/`, `Pow(·, 2)`,
  `Max`, `>`), with `math.Exp` taken as a parameter `exp : α → α`.  They are used at two
  types:
  * `α := ℝ` with `exp := Real.exp`: the real formulas, where `math.Max` is `max` and
    `math.Pow(y, 2)` is `y ^ 2`.  Derivatives are taken there.
  * `α := Float64 rnd` with `exp := math.Exp exp`: float64 values, that is finite numbers,
    `+Inf`, `-Inf` and NaN, with the IEEE 754 rules for the special values, a rounding
    `rnd` applied to every operation on finite numbers, and the `math.Exp` of the Go
    standard library, which overflows to `+Inf` above `Overflow` and underflows to `0`
    below `Underflow`.  The theorems on float64 hold for every rounding `rnd` that has the
    properties `IsRounding` and every function `exp` without negative values; exact
    arithmetic (`rnd := id`) with `Real.exp` is one instance.  Signed zeros are not
    modelled.
-/

namespace deep

/-! ## Enumerations -/

/-- Go: `type Mode int`. -/
abbrev Mode := Int

/-- Go: `ModeDefault Mode = 0`. -/
def ModeDefault : Mode := 0
/-- Go: `ModeMultiClass Mode = 1`. -/
def ModeMultiClass : Mode := 1
/-- Go: `ModeRegression Mode = 2`. -/
def ModeRegression : Mode := 2
/-- Go: `ModeBinary Mode = 3`. -/
def ModeBinary : Mode := 3
/-- Go: `ModeMultiLabel Mode = 4`. -/
def ModeMultiLabel : Mode := 4

/-- Go: `type ActivationType int`. -/
abbrev ActivationType := Int

/-- Go: `ActivationNone ActivationType = 0`. -/
def ActivationNone : ActivationType := 0
/-- Go: `ActivationSigmoid ActivationType = 1`. -/
def ActivationSigmoid : ActivationType := 1
/-- Go: `ActivationTanh ActivationType = 2`. -/
def ActivationTanh : ActivationType := 2
/-- Go: `ActivationReLU ActivationType = 3`. -/
def ActivationReLU : ActivationType := 3
/-- Go: `ActivationLinear ActivationType = 4`. -/
def ActivationLinear : ActivationType := 4
/-- Go: `ActivationSoftmax ActivationType = 5`. -/
def ActivationSoftmax : ActivationType := 5

/-! ## Resolvers -/

/-- Go: `func OutputActivation(c Mode) ActivationType`; the `switch` tries its cases in
order and falls out to the final `return ActivationNone`. -/
def OutputActivation (c : Mode) : ActivationType :=
  if c = ModeMultiClass then ActivationSoftmax
  else if c = ModeRegression then ActivationLinear
  else if c = ModeBinary ∨ c = ModeMultiLabel then ActivationSigmoid
  else ActivationNone

/-- Go: `type Differentiable interface`, as the dynamic type of the value it holds: one of
the four empty struct types `Sigmoid`, `Tanh`, `ReLU`, `Linear`. -/
inductive Differentiable where
  | Sigmoid
  | Tanh
  | ReLU
  | Linear
  deriving DecidableEq, Repr

/-- Go: `func GetActivation(act ActivationType) Differentiable`; the `switch` tries its
cases in order and falls out to the final `return Linear{}`. -/
def GetActivation (act : ActivationType) : Differentiable :=
  if act = ActivationSigmoid then Differentiable.Sigmoid
  else if act = ActivationTanh then Differentiable.Tanh
  else if act = ActivationReLU then Differentiable.ReLU
  else if act = ActivationLinear then Differentiable.Linear
  else if act = ActivationSoftmax then Differentiable.Linear
  else Differentiable.Linear

/-! ## float64 values -/

/-- Go: `float64`, as far as this development models it: a finite number (carried in `α`),
the two infinities and NaN.  The parameter `rnd` is the rounding that float64 arithmetic
applies to the exact result of an operation on finite numbers.  The special values and the
overflow and underflow of `math.Exp` are modelled; signed zeros are not, and an operation
on finite numbers gives a finite number.  The theorems on float64 meet the second limit in
the products `-a*x` and `2*x` only, which are arguments of `math.Exp`: it sends a finite
number beyond its thresholds where it sends the infinity of the same sign. -/
inductive Float64 {α : Type} (rnd : α → α) where
  | num (v : α)
  | posInf
  | negInf
  | nan

namespace Float64

variable {α : Type} [LinearOrderedField α] {rnd : α → α}

/-- IEEE 754 negation (exact). -/
def neg : Float64 rnd → Float64 rnd
  | num a => num (-a)
  | posInf => negInf
  | negInf => posInf
  | nan => nan

/-- IEEE 754 addition: `+Inf + -Inf` is NaN, an infinity absorbs a finite number, the sum
of two finite numbers is rounded. -/
def add : Float64 rnd → Float64 rnd → Float64 rnd
  | nan, _ => nan
  | _, nan => nan
  | posInf, negInf => nan
  | negInf, posInf => nan
  | posInf, _ => posInf
  | _, posInf => posInf
  | negInf, _ => negInf
  | _, negInf => negInf
  | num a, num b => num (rnd (a + b))

/-- An infinity with the sign of `s`; `Inf * 0` is NaN. -/
def infTimes (s : α) : Float64 rnd :=
  if s = 0 then nan else if 0 < s then posInf else negInf

/-- IEEE 754 multiplication; the product of two finite numbers is rounded. -/
def mul : Float64 rnd → Float64 rnd → Float64 rnd
  | nan, _ => nan
  | _, nan => nan
  | posInf, posInf => posInf
  | posInf, negInf => negInf
  | negInf, posInf => negInf
  | negInf, negInf => posInf
  | posInf, num b => infTimes b
  | negInf, num b => infTimes (-b)
  | num a, posInf => infTimes a
  | num a, negInf => infTimes (-a)
  | num a, num b => num (rnd (a * b))

/-- IEEE 754 division: `Inf / Inf` and `0 / 0` are NaN, a finite number over an infinity
is zero, a non-zero number over zero is an infinity (the zero taken as `+0`), the quotient
of two finite numbers is rounded. -/
def div : Float64 rnd → Float64 rnd → Float64 rnd
  | nan, _ => nan
  | _, nan => nan
  | posInf, posInf => nan
  | posInf, negInf => nan
  | negInf, posInf => nan
  | negInf, negInf => nan
  | posInf, num b => if 0 ≤ b then posInf else negInf
  | negInf, num b => if 0 ≤ b then negInf else posInf
  | num _, posInf => num 0
  | num _, negInf => num 0
  | num a, num b => if b = 0 then infTimes a else num (rnd (a / b))

/-- Go: `math.Pow(x, n)` for a natural exponent `n`: `Pow(x, 0) = 1` for every `x`,
`Pow(x, 1) = x`, otherwise the `n`-fold product. -/
def pow (x : Float64 rnd) : Nat → Float64 rnd
  | 0 => num 1
  | 1 => x
  | n + 2 => mul (pow x (n + 1)) x

/-- Go: `math.Max(x, y)`: `+Inf` if either argument is `+Inf`, else NaN if either is NaN,
else the larger argument. -/
def max : Float64 rnd → Float64 rnd → Float64 rnd
  | posInf, _ => posInf
  | _, posInf => posInf
  | nan, _ => nan
  | _, nan => nan
  | negInf, y => y
  | x, negInf => x
  | num a, num b => num (Max.max a b)

/-- IEEE 754 `<`: false as soon as an argument is NaN. -/
def lt : Float64 rnd → Float64 rnd → Bool
  | nan, _ => false
  | _, nan => false
  | _, negInf => false
  | posInf, _ => false
  | negInf, _ => true
  | num _, posInf => true
  | num a, num b => decide (a < b)

instance : Neg (Float64 rnd) := ⟨neg⟩
instance : Add (Float64 rnd) := ⟨add⟩
instance : Sub (Float64 rnd) := ⟨fun x y => add x (neg y)⟩
instance : Mul (Float64 rnd) := ⟨mul⟩
instance : Div (Float64 rnd) := ⟨div⟩
instance : Pow (Float64 rnd) Nat := ⟨pow⟩
instance : Max (Float64 rnd) := ⟨max⟩
instance : LT (Float64 rnd) := ⟨fun x y => lt x y = true⟩
instance : DecidableRel (fun x y : Float64 rnd => x < y) :=
  fun x y => inferInstanceAs (Decidable (lt x y = true))
instance : OfNat (Float64 rnd) 0 := ⟨num 0⟩
instance : OfNat (Float64 rnd) 1 := ⟨num 1⟩
instance : OfNat (Float64 rnd) 2 := ⟨num 2⟩

end Float64

/-- The properties of float64 rounding (to nearest, ties to even) that the theorems on
float64 use: it is monotone, commutes with negation, leaves a rounded number unchanged,
and leaves `0`, `1` and `2` unchanged.  The identity, which is exact arithmetic, has them
as well. -/
structure IsRounding {α : Type} [LinearOrderedField α] (rnd : α → α) : Prop where
  mono : ∀ a b : α, a ≤ b → rnd a ≤ rnd b
  neg : ∀ a : α, rnd (-a) = -rnd a
  idem : ∀ a : α, rnd (rnd a) = rnd a
  zero : rnd 0 = 0
  one : rnd 1 = 1
  two : rnd 2 = 2

namespace math

variable {α : Type} [LinearOrderedField α] {rnd : α → α}

/-- Go standard library, `math/exp.go`: `Overflow = 7.09782712893383973096e+02`, the
threshold above which `math.Exp` returns `+Inf`. -/
def Overflow : α := 709.782712893383973096

/-- Go standard library, `math/exp.go`: `Underflow = -7.45133219101941108420e+02`, the
threshold below which `math.Exp` returns `0`. -/
def Underflow : α := -745.133219101941108420

/-- Go standard library: `math.Exp` on float64.  Its special cases are `Exp(+Inf) = +Inf`,
`Exp(NaN) = NaN`, `Exp(-Inf) = 0`, and "very large values overflow to 0 or +Inf": above
`Overflow` the result is `+Inf`, below `Underflow` it is `0`.  Between the two the result
is the finite number `exp v`, where the parameter `exp` stands for the float64 that the
library computes there. -/
def Exp (exp : α → α) : Float64 rnd → Float64 rnd
  | Float64.nan => Float64.nan
  | Float64.posInf => Float64.posInf
  | Float64.negInf => Float64.num 0
  | Float64.num v =>
    if Overflow < v then Float64.posInf
    else if v < Underflow then Float64.num 0
    else Float64.num (exp v)

end math

/-! ## Activation implementations -/

section Activations

variable {α : Type} [OfNat α 0] [OfNat α 1] [OfNat α 2] [Neg α] [Add α] [Sub α] [Mul α]
  [Div α] [Pow α Nat] [Max α] [LT α] [DecidableRel (fun a b : α => a < b)]

/-- Go: `func Logistic(x, a float64) float64 { return 1 / (1 + math.Exp(-a*x)) }`;
Go parses `-a*x` as `(-a)*x`. -/
def Logistic (exp : α → α) (x a : α) : α :=
  1 / (1 + exp ((-a) * x))

/-- Go: `func (a Sigmoid) F(x float64) float64 { return Logistic(x, 1) }`. -/
def Sigmoid.F (exp : α → α) (x : α) : α := Logistic exp x 1

/-- Go: `func (a Sigmoid) Df(y float64) float64 { return y * (1 - y) }`. -/
def Sigmoid.Df (y : α) : α := y * (1 - y)

/-- Go: `func (a Tanh) F(x float64) float64`,
`return (1 - math.Exp(-2*x)) / (1 + math.Exp(-2*x))`. -/
def Tanh.F (exp : α → α) (x : α) : α :=
  (1 - exp ((-2) * x)) / (1 + exp ((-2) * x))

/-- Go: `func (a Tanh) Df(y float64) float64 { return 1 - math.Pow(y, 2) }`. -/
def Tanh.Df (y : α) : α := 1 - y ^ 2

/-- Go: `func (a ReLU) F(x float64) float64 { return math.Max(x, 0) }`. -/
def ReLU.F (x : α) : α := max x 0

/-- Go: `func (a ReLU) Df(y float64) float64`: `1` if `y > 0`, else `0`. -/
def ReLU.Df (y : α) : α := if y > 0 then 1 else 0

/-- Go: `func (a Linear) F(x float64) float64 { return x }`. -/
def Linear.F (x : α) : α := x

/-- Go: `func (a Linear) Df(x float64) float64 { return 1 }`. -/
def Linear.Df (_x : α) : α := 1

/-- Method `F` called on an interface value: dispatch on the dynamic type. -/
def Differentiable.F (exp : α → α) : Differentiable → α → α
  | Differentiable.Sigmoid, x => Sigmoid.F exp x
  | Differentiable.Tanh, x => Tanh.F exp x
  | Differentiable.ReLU, x => ReLU.F x
  | Differentiable.Linear, x => Linear.F x

/-- Method `Df` called on an interface value: dispatch on the dynamic type. -/
def Differentiable.Df : Differentiable → α → α
  | Differentiable.Sigmoid, y => Sigmoid.Df y
  | Differentiable.Tanh, y => Tanh.Df y
  | Differentiable.ReLU, y => ReLU.Df y
  | Differentiable.Linear, y => Linear.Df y

end Activations

/-! ## Helper lemmas -/

/-- The denominator `1 + e^t` of the exponential forms is positive over the reals. -/
lemma one_add_exp_pos (t : ℝ) : 0 < 1 + Real.exp t := by
  have := Real.exp_pos t
  linarith

/-- Unfolded form of `Sigmoid.F` over the reals. -/
lemma Sigmoid_F_real (x : ℝ) : Sigmoid.F Real.exp x = 1 / (1 + Real.exp (-x)) := by
  simp [Sigmoid.F, Logistic]

/-- The logistic form `Sigmoid.F` is differentiable at every real `x`, with derivative
`Sigmoid.Df` evaluated at the forward output. -/
lemma Sigmoid_hasDerivAt_F (x : ℝ) :
    HasDerivAt (Sigmoid.F Real.exp) (Sigmoid.Df (Sigmoid.F Real.exp x)) x := by
  have hfun : Sigmoid.F Real.exp = fun t : ℝ => (1 + Real.exp (-t))⁻¹ := by
    funext t
    rw [Sigmoid_F_real, one_div]
  have hpos := one_add_exp_pos (-x)
  have h1 : HasDerivAt (fun t : ℝ => -t) (-1) x := (hasDerivAt_id x).neg
  have h2 : HasDerivAt (fun t : ℝ => Real.exp (-t)) (Real.exp (-x) * (-1)) x := h1.exp
  have h3 : HasDerivAt (fun t : ℝ => 1 + Real.exp (-t)) (Real.exp (-x) * (-1)) x :=
    h2.const_add 1
  have h4 := h3.inv hpos.ne'
  rw [hfun]
  convert h4 using 1
  simp only [Sigmoid.Df]
  field_simp
  ring

/-- The exponential form `Tanh.F` is differentiable at every real `x`, with derivative
`Tanh.Df` evaluated at the forward output. -/
lemma Tanh_hasDerivAt_F (x : ℝ) :
    HasDerivAt (Tanh.F Real.exp) (Tanh.Df (Tanh.F Real.exp x)) x := by
  have hpos := one_add_exp_pos ((-2) * x)
  have h1 : HasDerivAt (fun t : ℝ => (-2) * t) (-2) x := by
    simpa using (hasDerivAt_id x).const_mul (-2 : ℝ)
  have h2 : HasDerivAt (fun t : ℝ => Real.exp ((-2) * t)) (Real.exp ((-2) * x) * (-2)) x :=
    h1.exp
  have hn : HasDerivAt (fun t : ℝ => 1 - Real.exp ((-2) * t))
      (-(Real.exp ((-2) * x) * (-2))) x := h2.const_sub 1
  have hd : HasDerivAt (fun t : ℝ => 1 + Real.exp ((-2) * t))
      (Real.exp ((-2) * x) * (-2)) x := h2.const_add 1
  have h := hn.div hd hpos.ne'
  have hfun : Tanh.F Real.exp
      = fun t : ℝ => (1 - Real.exp ((-2) * t)) / (1 + Real.exp ((-2) * t)) := rfl
  rw [hfun]
  convert h using 1
  simp only [Tanh.Df]
  field_simp
  ring

/-- The exponential form `Tanh.F` agrees with the hyperbolic tangent on the reals. -/
lemma Tanh_F_eq_tanh (x : ℝ) : Tanh.F Real.exp x = Real.tanh x := by
  have he : Real.exp ((-2) * x) = (Real.exp x)⁻¹ * (Real.exp x)⁻¹ := by
    rw [← Real.exp_neg, ← Real.exp_add]
    congr 1
    ring
  have hx := Real.exp_pos x
  rw [Real.tanh_eq_sinh_div_cosh, Real.sinh_eq, Real.cosh_eq, Real.exp_neg]
  simp only [Tanh.F]
  rw [he]
  field_simp

/-- Away from the kink `ReLU.F` is differentiable over the reals, with derivative `ReLU.Df`
evaluated at the forward output. -/
lemma ReLU_hasDerivAt_F (x : ℝ) (hx : x ≠ 0) :
    HasDerivAt (ReLU.F : ℝ → ℝ) (ReLU.Df (ReLU.F x)) x := by
  rcases lt_or_gt_of_ne hx with hneg | hpos
  · have hval : ReLU.Df (ReLU.F x) = (0 : ℝ) := by
      simp [ReLU.F, ReLU.Df, max_eq_right hneg.le]
    have hev : (ReLU.F : ℝ → ℝ) =ᶠ[nhds x] fun _ => (0 : ℝ) :=
      Filter.eventually_of_mem (Iio_mem_nhds hneg)
        (fun t ht => max_eq_right (le_of_lt ht))
    rw [hval]
    exact (hasDerivAt_const x (0 : ℝ)).congr_of_eventuallyEq hev
  · have hval : ReLU.Df (ReLU.F x) = (1 : ℝ) := by
      simp [ReLU.F, ReLU.Df, max_eq_left hpos.le, hpos]
    have hev : (ReLU.F : ℝ → ℝ) =ᶠ[nhds x] fun t => t :=
      Filter.eventually_of_mem (Ioi_mem_nhds hpos)
        (fun t ht => max_eq_left (le_of_lt ht))
    rw [hval]
    exact (hasDerivAt_id x).congr_of_eventuallyEq hev

/-- Over the reals `Tanh.F` is the logistic of steepness 2, rescaled. -/
lemma Tanh_F_eq_logistic_real (x : ℝ) :
    Tanh.F Real.exp x = 2 * Logistic Real.exp x 2 - 1 := by
  have hpos := one_add_exp_pos (-2 * x)
  simp only [Tanh.F, Logistic]
  field_simp
  ring

/-- Over the reals the derivative of `Tanh.F` is nowhere zero. -/
lemma Tanh_Df_real_pos (x : ℝ) : 0 < Tanh.Df (Tanh.F Real.exp x) := by
  have he := Real.exp_pos (-2 * x)
  have hpos := one_add_exp_pos (-2 * x)
  have hval : Tanh.Df (Tanh.F Real.exp x)
      = 4 * Real.exp (-2 * x) / (1 + Real.exp (-2 * x)) ^ 2 := by
    simp only [Tanh.Df, Tanh.F]
    field_simp
    ring
  rw [hval]
  positivity

/-! ## Helper lemmas on the float64 model -/

/-- Exact arithmetic has the properties of a rounding. -/
lemma IsRounding_id : IsRounding (id : ℝ → ℝ) :=
  ⟨fun _ _ h => h, fun _ => rfl, fun _ => rfl, rfl, rfl, rfl⟩

/-- A rounding leaves `-1` unchanged. -/
lemma IsRounding_neg_one {rnd : ℝ → ℝ} (hr : IsRounding rnd) : rnd (-1) = -1 := by
  rw [hr.neg, hr.one]

/-- A rounding keeps a number in `[0, 1]` in `[0, 1]`. -/
lemma IsRounding_unit {rnd : ℝ → ℝ} (hr : IsRounding rnd) (a : ℝ) (h0 : 0 ≤ a) (h1 : a ≤ 1) :
    0 ≤ rnd a ∧ rnd a ≤ 1 := by
  have l := hr.mono 0 a h0
  have u := hr.mono a 1 h1
  rw [hr.zero] at l
  rw [hr.one] at u
  exact ⟨l, u⟩

/-- A rounding keeps a number in `[-1, 1]` in `[-1, 1]`. -/
lemma IsRounding_symm_unit {rnd : ℝ → ℝ} (hr : IsRounding rnd) (a : ℝ) (h0 : -1 ≤ a)
    (h1 : a ≤ 1) : -1 ≤ rnd a ∧ rnd a ≤ 1 := by
  have l := hr.mono (-1) a h0
  have u := hr.mono a 1 h1
  rw [IsRounding_neg_one hr] at l
  rw [hr.one] at u
  exact ⟨l, u⟩

/-- The two thresholds of `math.Exp` are ordered, with `0` between them. -/
lemma Underflow_lt_Overflow :
    (math.Underflow : ℝ) < 0 ∧ (0 : ℝ) < math.Overflow ∧
      (math.Underflow : ℝ) < -math.Overflow := by
  norm_num [math.Underflow, math.Overflow]

/-- Above `Overflow`, `math.Exp` returns `+Inf`. -/
lemma Exp_num_of_overflow {rnd : ℝ → ℝ} (exp : ℝ → ℝ) (v : ℝ) (h : math.Overflow < v) :
    math.Exp exp (Float64.num v : Float64 rnd) = Float64.posInf := by
  simp [math.Exp, h]

/-- Below `Underflow`, `math.Exp` returns `0`. -/
lemma Exp_num_of_underflow {rnd : ℝ → ℝ} (exp : ℝ → ℝ) (v : ℝ) (h : v < math.Underflow) :
    math.Exp exp (Float64.num v : Float64 rnd) = Float64.num 0 := by
  have h2 : ¬ math.Overflow < v := by
    have := Underflow_lt_Overflow
    linarith
  simp [math.Exp, h, h2]

/-- Between its thresholds `math.Exp` returns the finite number `exp v`. -/
lemma Exp_num_of_mem {rnd : ℝ → ℝ} (exp : ℝ → ℝ) (v : ℝ) (h1 : math.Underflow ≤ v)
    (h2 : v ≤ math.Overflow) :
    math.Exp exp (Float64.num v : Float64 rnd) = Float64.num (exp v) := by
  simp [math.Exp, not_lt.mpr h1, not_lt.mpr h2]

/-- The result of `math.Exp` is NaN, `+Inf` or a finite number that is not negative. -/
lemma Exp_cases {rnd : ℝ → ℝ} (exp : ℝ → ℝ) (he : ∀ v, 0 ≤ exp v) (t : Float64 rnd) :
    math.Exp exp t = Float64.nan ∨ math.Exp exp t = Float64.posInf ∨
      ∃ e : ℝ, 0 ≤ e ∧ math.Exp exp t = Float64.num e := by
  cases t with
  | nan => exact Or.inl rfl
  | posInf => exact Or.inr (Or.inl rfl)
  | negInf => exact Or.inr (Or.inr ⟨0, le_refl 0, rfl⟩)
  | num v =>
    by_cases ho : math.Overflow < v
    · exact Or.inr (Or.inl (Exp_num_of_overflow exp v ho))
    · by_cases hu : v < math.Underflow
      · exact Or.inr (Or.inr ⟨0, le_refl 0, Exp_num_of_underflow exp v hu⟩)
      · exact Or.inr (Or.inr ⟨exp v, he v, Exp_num_of_mem exp v (not_lt.mp hu) (not_lt.mp ho)⟩)

/-- The result of `math.Exp` is NaN only at NaN. -/
lemma Exp_eq_nan_iff {rnd : ℝ → ℝ} (exp : ℝ → ℝ) (t : Float64 rnd) :
    math.Exp exp t = Float64.nan ↔ t = Float64.nan := by
  cases t with
  | nan => exact ⟨fun _ => rfl, fun _ => rfl⟩
  | posInf => exact ⟨fun h => by simp [math.Exp] at h, fun h => by simp at h⟩
  | negInf => exact ⟨fun h => by simp [math.Exp] at h, fun h => by simp at h⟩
  | num v =>
    refine ⟨fun h => ?_, fun h => by simp at h⟩
    exfalso
    by_cases ho : math.Overflow < v
    · rw [Exp_num_of_overflow exp v ho] at h
      simp at h
    · by_cases hu : v < math.Underflow
      · rw [Exp_num_of_underflow exp v hu] at h
        simp at h
      · rw [Exp_num_of_mem exp v (not_lt.mp hu) (not_lt.mp ho)] at h
        simp at h

/-- The product of a finite non-zero constant and a float64: an infinity keeps or changes
its sign, NaN stays NaN, a finite number gives the rounded product. -/
lemma Float64_num_mul_cases {rnd : ℝ → ℝ} (c : ℝ) (hc : c < 0) (x : Float64 rnd) :
    (x = Float64.nan ∧ Float64.num c * x = Float64.nan) ∨
    (x = Float64.posInf ∧ Float64.num c * x = Float64.negInf) ∨
    (x = Float64.negInf ∧ Float64.num c * x = Float64.posInf) ∨
    ∃ v : ℝ, x = Float64.num v ∧ Float64.num c * x = Float64.num (rnd (c * v)) := by
  cases x with
  | nan => exact Or.inl ⟨rfl, rfl⟩
  | posInf =>
    refine Or.inr (Or.inl ⟨rfl, ?_⟩)
    show Float64.infTimes c = _
    simp [Float64.infTimes, hc.ne, not_lt.mpr hc.le]
  | negInf =>
    refine Or.inr (Or.inr (Or.inl ⟨rfl, ?_⟩))
    show Float64.infTimes (-c) = _
    simp [Float64.infTimes, hc.ne, hc]
  | num v => exact Or.inr (Or.inr (Or.inr ⟨v, rfl, rfl⟩))

/-- The logistic quotient `1 / (1 + e)` at a finite `e ≥ 0` is a number in `[0, 1]`. -/
lemma Float64_logistic_num {rnd : ℝ → ℝ} (hr : IsRounding rnd) (e : ℝ) (h : 0 ≤ e) :
    ((1 : Float64 rnd) / (1 + Float64.num e)) = Float64.num (rnd (1 / rnd (1 + e))) ∧
    0 ≤ rnd (1 / rnd (1 + e)) ∧ rnd (1 / rnd (1 + e)) ≤ 1 := by
  have hd : 1 ≤ rnd (1 + e) := by
    have := hr.mono 1 (1 + e) (by linarith)
    rwa [hr.one] at this
  have hd0 : rnd (1 + e) ≠ 0 := by linarith
  refine ⟨?_, ?_⟩
  · show Float64.div (Float64.num 1) (Float64.num (rnd (1 + e))) = _
    simp [Float64.div, hd0]
  · apply IsRounding_unit hr
    · have : 0 < rnd (1 + e) := by linarith
      positivity
    · rw [div_le_one (by linarith)]
      exact hd

/-- The logistic quotient `1 / (1 + e)` at `e = +Inf` is `0`, at NaN it is NaN. -/
lemma Float64_logistic_special {rnd : ℝ → ℝ} :
    ((1 : Float64 rnd) / (1 + Float64.posInf)) = Float64.num 0 ∧
    ((1 : Float64 rnd) / (1 + Float64.nan)) = Float64.nan :=
  ⟨rfl, rfl⟩

/-- The quotient `(1 - e) / (1 + e)` at a finite `e ≥ 0` is a number in `[-1, 1]`. -/
lemma Float64_tanh_num {rnd : ℝ → ℝ} (hr : IsRounding rnd) (e : ℝ) (h : 0 ≤ e) :
    ((1 : Float64 rnd) - Float64.num e) / (1 + Float64.num e)
      = Float64.num (rnd (rnd (1 - e) / rnd (1 + e))) ∧
    -1 ≤ rnd (rnd (1 - e) / rnd (1 + e)) ∧ rnd (rnd (1 - e) / rnd (1 + e)) ≤ 1 := by
  have hd : 1 ≤ rnd (1 + e) := by
    have := hr.mono 1 (1 + e) (by linarith)
    rwa [hr.one] at this
  have hd0 : rnd (1 + e) ≠ 0 := by linarith
  have hdpos : 0 < rnd (1 + e) := by linarith
  have hu : rnd (1 - e) ≤ rnd (1 + e) := hr.mono _ _ (by linarith)
  have hl : -rnd (1 + e) ≤ rnd (1 - e) := by
    rw [← hr.neg]
    exact hr.mono _ _ (by linarith)
  refine ⟨?_, ?_⟩
  · show Float64.div (Float64.num (rnd (1 + -e))) (Float64.num (rnd (1 + e))) = _
    rw [← sub_eq_add_neg]
    simp [Float64.div, hd0]
  · apply IsRounding_symm_unit hr
    · rw [le_div_iff₀ hdpos]
      linarith
    · rw [div_le_one hdpos]
      exact hu

/-- The quotient `(1 - e) / (1 + e)` is NaN at `e = +Inf` (it is `-Inf / +Inf`) and at
NaN. -/
lemma Float64_tanh_special {rnd : ℝ → ℝ} :
    ((1 : Float64 rnd) - Float64.posInf) / (1 + Float64.posInf) = Float64.nan ∧
    ((1 : Float64 rnd) - Float64.nan) / (1 + Float64.nan) = Float64.nan :=
  ⟨rfl, rfl⟩

/-- On a number `y` of `[-1, 1]`, `Tanh.Df` is `1 - y^2` with both operations rounded, a
number in `[0, 1]`. -/
lemma Float64_Tanh_Df_num {rnd : ℝ → ℝ} (hr : IsRounding rnd) (y : ℝ) (h1 : -1 ≤ y)
    (h2 : y ≤ 1) :
    Tanh.Df (Float64.num y : Float64 rnd) = Float64.num (rnd (1 - rnd (y * y))) ∧
    0 ≤ rnd (1 - rnd (y * y)) ∧ rnd (1 - rnd (y * y)) ≤ 1 := by
  have hs := IsRounding_unit hr (y * y) (mul_self_nonneg y) (by nlinarith)
  refine ⟨?_, ?_⟩
  · show Float64.num (rnd (1 + -rnd (y * y))) = _
    rw [← sub_eq_add_neg]
  · apply IsRounding_unit hr
    · linarith [hs.2]
    · linarith [hs.1]

/-- The value of `Tanh.F` as a function of the result of `math.Exp(-2x)`: NaN when that is
NaN or `+Inf`, a number in `[-1, 1]` when that is a finite number. -/
lemma Tanh_F_of_Exp {rnd : ℝ → ℝ} (hr : IsRounding rnd) (exp : ℝ → ℝ) (x : Float64 rnd) :
    (math.Exp exp (-2 * x) = Float64.nan → Tanh.F (math.Exp exp) x = Float64.nan) ∧
    (math.Exp exp (-2 * x) = Float64.posInf → Tanh.F (math.Exp exp) x = Float64.nan) ∧
    (∀ e : ℝ, 0 ≤ e → math.Exp exp (-2 * x) = Float64.num e →
      Tanh.F (math.Exp exp) x = Float64.num (rnd (rnd (1 - e) / rnd (1 + e))) ∧
      -1 ≤ rnd (rnd (1 - e) / rnd (1 + e)) ∧ rnd (rnd (1 - e) / rnd (1 + e)) ≤ 1) := by
  have hF : Tanh.F (math.Exp exp) x
      = (1 - math.Exp exp (-2 * x)) / (1 + math.Exp exp (-2 * x)) := rfl
  refine ⟨fun h => ?_, fun h => ?_, fun e he h => ?_⟩
  · rw [hF, h]
    exact Float64_tanh_special.2
  · rw [hF, h]
    exact Float64_tanh_special.1
  · rw [hF, h]
    exact Float64_tanh_num hr e he

/-- The value of `Logistic` as a function of the result of `math.Exp(-a*x)`: NaN when that
is NaN, `0` when that is `+Inf`, a number in `[0, 1]` when that is a finite number. -/
lemma Logistic_of_Exp {rnd : ℝ → ℝ} (hr : IsRounding rnd) (exp : ℝ → ℝ)
    (x a : Float64 rnd) :
    (math.Exp exp (-a * x) = Float64.nan → Logistic (math.Exp exp) x a = Float64.nan) ∧
    (math.Exp exp (-a * x) = Float64.posInf →
      Logistic (math.Exp exp) x a = Float64.num 0) ∧
    (∀ e : ℝ, 0 ≤ e → math.Exp exp (-a * x) = Float64.num e →
      Logistic (math.Exp exp) x a = Float64.num (rnd (1 / rnd (1 + e))) ∧
      0 ≤ rnd (1 / rnd (1 + e)) ∧ rnd (1 / rnd (1 + e)) ≤ 1) := by
  have hF : Logistic (math.Exp exp) x a = 1 / (1 + math.Exp exp (-a * x)) := rfl
  refine ⟨fun h => ?_, fun h => ?_, fun e he h => ?_⟩
  · rw [hF, h]
    exact Float64_logistic_special.2
  · rw [hF, h]
    exact Float64_logistic_special.1
  · rw [hF, h]
    exact Float64_logistic_num hr e he

/-- The arguments `-2*x` of `Logistic(x, 2)` and `-1*(2*x)` of `Sigmoid.F(2*x)` are the same
float64. -/
lemma Float64_neg_two_mul {rnd : ℝ → ℝ} (hr : IsRounding rnd) (x : Float64 rnd) :
    (-(2 : Float64 rnd) * x) = -(1 : Float64 rnd) * ((2 : Float64 rnd) * x) := by
  cases x with
  | nan => rfl
  | posInf =>
    show Float64.infTimes (-2 : ℝ) = Float64.mul (Float64.num (-1)) (Float64.infTimes (2 : ℝ))
    norm_num [Float64.infTimes, Float64.mul]
  | negInf =>
    show Float64.infTimes (-(-2) : ℝ)
      = Float64.mul (Float64.num (-1)) (Float64.infTimes (-(2 : ℝ)))
    norm_num [Float64.infTimes, Float64.mul]
  | num v =>
    show Float64.num (rnd (-2 * v)) = Float64.num (rnd (-1 * rnd (2 * v)))
    congr 1
    rw [neg_one_mul, hr.neg, hr.idem, ← hr.neg]
    congr 1
    ring

/-- On a finite number `math.Exp` returns `+Inf` exactly above `Overflow`. -/
lemma Exp_num_eq_posInf_iff {rnd : ℝ → ℝ} (exp : ℝ → ℝ) (v : ℝ) :
    math.Exp exp (Float64.num v : Float64 rnd) = Float64.posInf ↔ math.Overflow < v := by
  refine ⟨fun h => ?_, Exp_num_of_overflow exp v⟩
  by_contra ho
  by_cases hu : v < math.Underflow
  · rw [Exp_num_of_underflow exp v hu] at h
    simp at h
  · rw [Exp_num_of_mem exp v (not_lt.mp hu) (not_lt.mp ho)] at h
    simp at h

/-- On a finite float64 `Tanh.F` is NaN exactly where `math.Exp(-2x)` overflows, that is
where the float64 product `-2*x` is above `Overflow`. -/
lemma Tanh_F_num_eq_nan_iff {rnd : ℝ → ℝ} (hr : IsRounding rnd) (exp : ℝ → ℝ)
    (he : ∀ v, 0 ≤ exp v) (v : ℝ) :
    Tanh.F (math.Exp exp) (Float64.num v : Float64 rnd) = Float64.nan
      ↔ math.Overflow < rnd (-2 * v) := by
  have hT := Tanh_F_of_Exp hr exp (Float64.num v)
  have harg : (-2 * Float64.num v : Float64 rnd) = Float64.num (rnd (-2 * v)) := rfl
  rw [harg] at hT
  constructor
  · intro hn
    rcases Exp_cases exp he (Float64.num (rnd (-2 * v)) : Float64 rnd) with h | h | ⟨e, he0, h⟩
    · have := (Exp_eq_nan_iff exp _).mp h
      simp at this
    · exact (Exp_num_eq_posInf_iff exp _).mp h
    · rw [(hT.2.2 e he0 h).1] at hn
      simp at hn
  · intro ho
    exact hT.2.1 (Exp_num_of_overflow exp _ ho)

/-- On a finite float64 where `math.Exp(-2x)` does not overflow, `Tanh.F` is a number of
`[-1, 1]`. -/
lemma Tanh_F_num_of_le {rnd : ℝ → ℝ} (hr : IsRounding rnd) (exp : ℝ → ℝ)
    (he : ∀ v, 0 ≤ exp v) (v : ℝ) (h : rnd (-2 * v) ≤ math.Overflow) :
    ∃ y : ℝ, Tanh.F (math.Exp exp) (Float64.num v : Float64 rnd) = Float64.num y ∧
      -1 ≤ y ∧ y ≤ 1 := by
  have hT := Tanh_F_of_Exp hr exp (Float64.num v)
  have harg : (-2 * Float64.num v : Float64 rnd) = Float64.num (rnd (-2 * v)) := rfl
  rw [harg] at hT
  rcases Exp_cases exp he (Float64.num (rnd (-2 * v)) : Float64 rnd) with h1 | h1 | ⟨e, he0, h1⟩
  · have := (Exp_eq_nan_iff exp _).mp h1
    simp at this
  · exact absurd ((Exp_num_eq_posInf_iff exp _).mp h1) (not_lt.mpr h)
  · exact ⟨_, (hT.2.2 e he0 h1).1, (hT.2.2 e he0 h1).2⟩

/-- A finite negative constant times a float64 is NaN only at NaN. -/
lemma Float64_num_mul_eq_nan_iff {rnd : ℝ → ℝ} (c : ℝ) (hc : c < 0) (x : Float64 rnd) :
    Float64.num c * x = Float64.nan ↔ x = Float64.nan := by
  rcases Float64_num_mul_cases c hc x with ⟨h1, h2⟩ | ⟨h1, h2⟩ | ⟨h1, h2⟩ | ⟨v, h1, h2⟩
  · rw [h2, h1]
  · rw [h2, h1]
    simp
  · rw [h2, h1]
    simp
  · rw [h2, h1]
    simp

/-- Where `math.Exp(-2x)` underflows to `0`, `Tanh.F` is exactly `1`. -/
lemma Tanh_F_of_Exp_zero {rnd : ℝ → ℝ} (hr : IsRounding rnd) (exp : ℝ → ℝ) (x : Float64 rnd)
    (h : math.Exp exp (-2 * x) = Float64.num 0) :
    Tanh.F (math.Exp exp) x = Float64.num 1 := by
  rw [((Tanh_F_of_Exp hr exp x).2.2 0 (le_refl 0) h).1]
  simp [hr.one]

/-- Where `math.Exp(-a*x)` underflows to `0`, `Logistic` is exactly `1`. -/
lemma Logistic_of_Exp_zero {rnd : ℝ → ℝ} (hr : IsRounding rnd) (exp : ℝ → ℝ)
    (x a : Float64 rnd) (h : math.Exp exp (-a * x) = Float64.num 0) :
    Logistic (math.Exp exp) x a = Float64.num 1 := by
  rw [((Logistic_of_Exp hr exp x a).2.2 0 (le_refl 0) h).1]
  simp [hr.one]

/-- The rescaling `2 * l - 1` of a number `l` of `[0, 1]` is a number of `[-1, 1]`. -/
lemma Float64_rescale_num {rnd : ℝ → ℝ} (hr : IsRounding rnd) (l : ℝ) (h0 : 0 ≤ l)
    (h1 : l ≤ 1) :
    (2 * Float64.num l - 1 : Float64 rnd) = Float64.num (rnd (rnd (2 * l) - 1)) ∧
    -1 ≤ rnd (rnd (2 * l) - 1) ∧ rnd (rnd (2 * l) - 1) ≤ 1 := by
  have hl := hr.mono 0 (2 * l) (by linarith)
  have hu := hr.mono (2 * l) 2 (by linarith)
  rw [hr.zero] at hl
  rw [hr.two] at hu
  refine ⟨?_, ?_⟩
  · show Float64.num (rnd (rnd (2 * l) + -1)) = _
    rw [← sub_eq_add_neg]
  · apply IsRounding_symm_unit hr
    · linarith
    · linarith

/-! ## Resolver theorems -/

/-- C1: `OutputActivation` sends MultiClass to Softmax, Regression to Linear, and both
Binary and MultiLabel to Sigmoid. -/
theorem OutputActivation_named_modes :
    OutputActivation ModeMultiClass = ActivationSoftmax ∧
    OutputActivation ModeRegression = ActivationLinear ∧
    OutputActivation ModeBinary = ActivationSigmoid ∧
    OutputActivation ModeMultiLabel = ActivationSigmoid := by
  decide

/-- C2: every `Mode` value other than MultiClass, Regression, Binary and MultiLabel is
sent to `ActivationNone`; `OutputActivation` is a total function, so a result exists for
every input. -/
theorem OutputActivation_default_none (m : Mode)
    (h1 : m ≠ ModeMultiClass) (h2 : m ≠ ModeRegression)
    (h3 : m ≠ ModeBinary) (h4 : m ≠ ModeMultiLabel) :
    OutputActivation m = ActivationNone ∧ (m = ModeDefault ∨ m < 0 ∨ 4 < m) := by
  refine ⟨by simp [OutputActivation, h1, h2, h3, h4], ?_⟩
  have key : ∀ k : Int, k ≠ 1 → k ≠ 2 → k ≠ 3 → k ≠ 4 → k = 0 ∨ k < 0 ∨ 4 < k := by
    intro k
    omega
  exact key m h1 h2 h3 h4

/-- Witness for C2 at the out-of-range value `999`. -/
theorem OutputActivation_default_none_witness :
    (999 : Mode) ≠ ModeMultiClass ∧ (999 : Mode) ≠ ModeRegression ∧
    (999 : Mode) ≠ ModeBinary ∧ (999 : Mode) ≠ ModeMultiLabel ∧
    (OutputActivation 999 = ActivationNone ∧
      ((999 : Mode) = ModeDefault ∨ (999 : Mode) < 0 ∨ (4 : Mode) < 999)) :=
  ⟨by decide, by decide, by decide, by decide,
    OutputActivation_default_none 999 (by decide) (by decide) (by decide) (by decide)⟩

/-- C3: `GetActivation` returns the Sigmoid, Tanh, ReLU and Linear variant for the kind of
the same name, and the `F` and `Df` of the returned value are those of that variant at
every real argument. -/
theorem GetActivation_implemented_kinds :
    GetActivation ActivationSigmoid = Differentiable.Sigmoid ∧
    GetActivation ActivationTanh = Differentiable.Tanh ∧
    GetActivation ActivationReLU = Differentiable.ReLU ∧
    GetActivation ActivationLinear = Differentiable.Linear ∧
    (∀ x : ℝ,
      (GetActivation ActivationSigmoid).F Real.exp x = Sigmoid.F Real.exp x ∧
      (GetActivation ActivationSigmoid).Df x = Sigmoid.Df x ∧
      (GetActivation ActivationTanh).F Real.exp x = Tanh.F Real.exp x ∧
      (GetActivation ActivationTanh).Df x = Tanh.Df x ∧
      (GetActivation ActivationReLU).F Real.exp x = ReLU.F x ∧
      (GetActivation ActivationReLU).Df x = ReLU.Df x ∧
      (GetActivation ActivationLinear).F Real.exp x = Linear.F x ∧
      (GetActivation ActivationLinear).Df x = Linear.Df x) := by
  refine ⟨by decide, by decide, by decide, by decide, fun x => ?_⟩
  have hS : GetActivation ActivationSigmoid = Differentiable.Sigmoid := by decide
  have hT : GetActivation ActivationTanh = Differentiable.Tanh := by decide
  have hR : GetActivation ActivationReLU = Differentiable.ReLU := by decide
  have hL : GetActivation ActivationLinear = Differentiable.Linear := by decide
  rw [hS, hT, hR, hL]
  exact ⟨rfl, rfl, rfl, rfl, rfl, rfl, rfl, rfl⟩

/-- C4: `GetActivation ActivationSoftmax` and `GetActivation ActivationLinear` are the same
Linear variant; at every real `x` both have `F x = x` and `Df x = 1`. -/
theorem GetActivation_softmax_is_linear :
    GetActivation ActivationSoftmax = Differentiable.Linear ∧
    GetActivation ActivationLinear = Differentiable.Linear ∧
    (∀ x : ℝ,
      (GetActivation ActivationSoftmax).F Real.exp x
          = (GetActivation ActivationLinear).F Real.exp x ∧
      (GetActivation ActivationLinear).F Real.exp x = x ∧
      (GetActivation ActivationSoftmax).Df x = (GetActivation ActivationLinear).Df x ∧
      (GetActivation ActivationLinear).Df x = 1) := by
  have hS : GetActivation ActivationSoftmax = Differentiable.Linear := by decide
  have hL : GetActivation ActivationLinear = Differentiable.Linear := by decide
  refine ⟨hS, hL, fun x => ?_⟩
  rw [hS, hL]
  exact ⟨rfl, rfl, rfl, rfl⟩

/-- C5: every `ActivationType` value other than Sigmoid, Tanh and ReLU is resolved to the
Linear variant; `GetActivation` is a total function, so a result exists for every input. -/
theorem GetActivation_default_linear (t : ActivationType)
    (h1 : t ≠ ActivationSigmoid) (h2 : t ≠ ActivationTanh) (h3 : t ≠ ActivationReLU) :
    GetActivation t = Differentiable.Linear := by
  simp [GetActivation, h1, h2, h3]

/-- Witness for C5 at the unrecognized value `123`. -/
theorem GetActivation_default_linear_witness :
    (123 : ActivationType) ≠ ActivationSigmoid ∧ (123 : ActivationType) ≠ ActivationTanh ∧
    (123 : ActivationType) ≠ ActivationReLU ∧
    GetActivation 123 = Differentiable.Linear :=
  ⟨by decide, by decide, by decide,
    GetActivation_default_linear 123 (by decide) (by decide) (by decide)⟩

/-! ## Activation theorems over the reals -/

/-- C6: at every real `x`, `Sigmoid.F` is differentiable and its derivative is `Sigmoid.Df`
applied to the forward output `Sigmoid.F x`. -/
theorem Sigmoid_Df_of_output_is_derivative (x : ℝ) :
    HasDerivAt (Sigmoid.F Real.exp) (Sigmoid.Df (Sigmoid.F Real.exp x)) x ∧
    deriv (Sigmoid.F Real.exp) x = Sigmoid.Df (Sigmoid.F Real.exp x) :=
  ⟨Sigmoid_hasDerivAt_F x, (Sigmoid_hasDerivAt_F x).deriv⟩

/-- C10: for every real `y` in `[0, 1]`, `Sigmoid.Df y = y * (1 - y)` and
`Sigmoid.Df y ≤ 0.25`; the bound is attained at `y = 0.5`, which lies in `[0, 1]`. -/
theorem Sigmoid_Df_max_at_half (y : ℝ) (hy : y ∈ Set.Icc (0 : ℝ) 1) :
    Sigmoid.Df y = y * (1 - y) ∧ Sigmoid.Df y ≤ 0.25 ∧
    (0.5 : ℝ) ∈ Set.Icc (0 : ℝ) 1 ∧ Sigmoid.Df (0.5 : ℝ) = 0.25 := by
  obtain ⟨_, _⟩ := hy
  refine ⟨rfl, ?_, ⟨by norm_num, by norm_num⟩, ?_⟩
  · simp only [Sigmoid.Df]
    nlinarith [sq_nonneg (y - 1 / 2)]
  · simp only [Sigmoid.Df]
    norm_num

/-- Witness for C10 at `y = 1`, an endpoint of the interval. -/
theorem Sigmoid_Df_max_at_half_witness :
    (1 : ℝ) ∈ Set.Icc (0 : ℝ) 1 ∧
    (Sigmoid.Df (1 : ℝ) = 1 * (1 - 1) ∧ Sigmoid.Df (1 : ℝ) ≤ 0.25 ∧
      (0.5 : ℝ) ∈ Set.Icc (0 : ℝ) 1 ∧ Sigmoid.Df (0.5 : ℝ) = 0.25) :=
  ⟨⟨by norm_num, le_refl 1⟩, Sigmoid_Df_max_at_half 1 ⟨by norm_num, le_refl 1⟩⟩

/-- C11: `Sigmoid.F` is `Logistic` with steepness `1`, that is `1 / (1 + e^(-x))`, where
`Logistic x a = 1 / (1 + e^(-(a * x)))`. -/
theorem Sigmoid_F_is_logistic_one (x a : ℝ) :
    Sigmoid.F Real.exp x = Logistic Real.exp x 1 ∧
    Logistic Real.exp x 1 = 1 / (1 + Real.exp (-x)) ∧
    Logistic Real.exp x a = 1 / (1 + Real.exp (-(a * x))) := by
  refine ⟨rfl, ?_, ?_⟩
  · simp [Logistic]
  · simp [Logistic]

/-- C12: `Sigmoid.F 0 = 0.5`, and the derivative fed with that output is
`Sigmoid.Df (Sigmoid.F 0) = Sigmoid.Df 0.5 = 0.25`. -/
theorem Sigmoid_end_to_end_at_zero :
    Sigmoid.F Real.exp (0 : ℝ) = 0.5 ∧
    Sigmoid.Df (Sigmoid.F Real.exp (0 : ℝ)) = Sigmoid.Df (0.5 : ℝ) ∧
    Sigmoid.Df (0.5 : ℝ) = 0.25 := by
  have h0 : Sigmoid.F Real.exp (0 : ℝ) = 0.5 := by
    rw [Sigmoid_F_real]
    norm_num
  refine ⟨h0, by rw [h0], ?_⟩
  simp only [Sigmoid.Df]
  norm_num

/-- C14: `ReLU.F x = max x 0`, which is `x` when `x > 0` and `0` otherwise; in particular
`ReLU.F (-5) = 0`, `ReLU.F 5 = 5` and `ReLU.F 0 = 0`. -/
theorem ReLU_F_is_max (x : ℝ) :
    ReLU.F x = max x 0 ∧
    ReLU.F x = (if x > 0 then x else 0) ∧
    ReLU.F (-5 : ℝ) = 0 ∧ ReLU.F (5 : ℝ) = 5 ∧ ReLU.F (0 : ℝ) = 0 := by
  refine ⟨rfl, ?_, ?_, ?_, ?_⟩
  · by_cases h : x > 0
    · simp [ReLU.F, h, max_eq_left h.le]
    · simp [ReLU.F, h, max_eq_right (not_lt.mp h)]
  · simp [ReLU.F]
  · simp [ReLU.F]
  · simp [ReLU.F]

/-- C15: `ReLU.Df y` is `1` if `y > 0` and `0` otherwise, so it is always `0` or `1`; at
the kink `ReLU.Df 0 = 0`, and `ReLU.Df 0.0001 = 1`, `ReLU.Df (-0.0001) = 0`. -/
theorem ReLU_Df_is_step (y : ℝ) :
    ReLU.Df y = (if y > 0 then 1 else 0) ∧
    (ReLU.Df y = 0 ∨ ReLU.Df y = 1) ∧
    ReLU.Df (0 : ℝ) = 0 ∧ ReLU.Df (0.0001 : ℝ) = 1 ∧ ReLU.Df (-0.0001 : ℝ) = 0 := by
  refine ⟨rfl, ?_, ?_, ?_, ?_⟩
  · by_cases h : y > 0
    · right
      simp [ReLU.Df, h]
    · left
      simp [ReLU.Df, h]
  · simp [ReLU.Df]
  · simp only [ReLU.Df]
    norm_num
  · simp only [ReLU.Df]
    norm_num

/-- C16: `Linear.F` is the identity and `Linear.Df` is constantly `1`, so its value does
not depend on the argument. -/
theorem Linear_identity_const_derivative (x y : ℝ) :
    Linear.F x = x ∧ Linear.Df x = 1 ∧ Linear.Df x = Linear.Df y :=
  ⟨rfl, rfl, rfl⟩

/-- C17: the `Mode` tags are exactly `0, 1, 2, 3, 4` and the `ActivationType` tags are
exactly `0, 1, 2, 3, 4, 5`; within each enumeration the values are pairwise distinct. -/
theorem enum_tags_values :
    [ModeDefault, ModeMultiClass, ModeRegression, ModeBinary, ModeMultiLabel]
      = [0, 1, 2, 3, 4] ∧
    [ActivationNone, ActivationSigmoid, ActivationTanh, ActivationReLU, ActivationLinear,
      ActivationSoftmax] = [0, 1, 2, 3, 4, 5] ∧
    [ModeDefault, ModeMultiClass, ModeRegression, ModeBinary, ModeMultiLabel].Nodup ∧
    [ActivationNone, ActivationSigmoid, ActivationTanh, ActivationReLU, ActivationLinear,
      ActivationSoftmax].Nodup := by
  decide

/-- C18: at every real `x`, `ReLU.Df (ReLU.F x) = ReLU.Df x`; and at every real `x ≠ 0`,
`ReLU.F` is differentiable with derivative `ReLU.Df (ReLU.F x)`. -/
theorem ReLU_Df_output_or_input (x : ℝ) :
    ReLU.Df (ReLU.F x) = ReLU.Df x ∧
    (x ≠ 0 → HasDerivAt (ReLU.F : ℝ → ℝ) (ReLU.Df (ReLU.F x)) x ∧
      deriv (ReLU.F : ℝ → ℝ) x = ReLU.Df (ReLU.F x)) := by
  constructor
  · by_cases h : x > 0
    · simp [ReLU.F, max_eq_left h.le]
    · simp [ReLU.F, ReLU.Df, h, max_eq_right (not_lt.mp h)]
  · intro hx
    exact ⟨ReLU_hasDerivAt_F x hx, (ReLU_hasDerivAt_F x hx).deriv⟩

/-- Witness for C18 at `x = -3`, on the flat side of the kink. -/
theorem ReLU_Df_output_or_input_witness :
    (-3 : ℝ) ≠ 0 ∧
    ReLU.Df (ReLU.F (-3 : ℝ)) = ReLU.Df (-3 : ℝ) ∧
    HasDerivAt (ReLU.F : ℝ → ℝ) (ReLU.Df (ReLU.F (-3 : ℝ))) (-3) ∧
    deriv (ReLU.F : ℝ → ℝ) (-3) = ReLU.Df (ReLU.F (-3 : ℝ)) :=
  ⟨by norm_num, (ReLU_Df_output_or_input (-3)).1,
    (ReLU_Df_output_or_input (-3)).2 (by norm_num)⟩

/-- C19: for every `Mode` value `m`, `GetActivation (OutputActivation m)` is the Sigmoid
variant when `m` is Binary or MultiLabel and the Linear variant otherwise; it is never the
Tanh or the ReLU variant. -/
theorem GetActivation_OutputActivation (m : Mode) :
    GetActivation (OutputActivation m)
      = (if m = ModeBinary ∨ m = ModeMultiLabel then Differentiable.Sigmoid
         else Differentiable.Linear) ∧
    GetActivation (OutputActivation m) ≠ Differentiable.Tanh ∧
    GetActivation (OutputActivation m) ≠ Differentiable.ReLU := by
  have key : GetActivation (OutputActivation m)
      = (if m = ModeBinary ∨ m = ModeMultiLabel then Differentiable.Sigmoid
         else Differentiable.Linear) := by
    unfold OutputActivation
    by_cases h1 : m = ModeMultiClass
    · subst h1
      decide
    · by_cases h2 : m = ModeRegression
      · subst h2
        decide
      · by_cases h3 : m = ModeBinary ∨ m = ModeMultiLabel
        · rw [if_neg h1, if_neg h2, if_pos h3, if_pos h3]
          decide
        · rw [if_neg h1, if_neg h2, if_neg h3, if_neg h3]
          decide
  rw [key]
  by_cases h : m = ModeBinary ∨ m = ModeMultiLabel
  · rw [if_pos h]
    exact ⟨rfl, by decide, by decide⟩
  · rw [if_neg h]
    exact ⟨rfl, by decide, by decide⟩

/-! ## Activation theorems on float64 -/

/-- C9, counterexample: at the float64 input `800` the code returns exactly `1`
(`math.Exp(-800)` underflows to `0`), so `Sigmoid.F 800 < 1` fails; at `-800` it returns
exactly `0` (`math.Exp(800)` overflows to `+Inf`), so `0 < Sigmoid.F (-800)` fails.  No
operation rounds at these inputs; the arithmetic is taken exact. -/
theorem Sigmoid_F_not_below_one_at_800 :
    Sigmoid.F (math.Exp Real.exp) (Float64.num 800 : Float64 (id : ℝ → ℝ)) = Float64.num 1 ∧
    ¬ ((0 : Float64 (id : ℝ → ℝ)) < Sigmoid.F (math.Exp Real.exp) (Float64.num 800) ∧
        Sigmoid.F (math.Exp Real.exp) (Float64.num 800 : Float64 (id : ℝ → ℝ)) < 1) ∧
    Sigmoid.F (math.Exp Real.exp) (Float64.num (-800) : Float64 (id : ℝ → ℝ))
      = Float64.num 0 ∧
    ¬ ((0 : Float64 (id : ℝ → ℝ)) < Sigmoid.F (math.Exp Real.exp) (Float64.num (-800)) ∧
        Sigmoid.F (math.Exp Real.exp) (Float64.num (-800) : Float64 (id : ℝ → ℝ)) < 1) := by
  have h : Sigmoid.F (math.Exp Real.exp) (Float64.num 800 : Float64 (id : ℝ → ℝ))
      = Float64.num 1 := by
    apply Logistic_of_Exp_zero IsRounding_id
    apply Exp_num_of_underflow
    norm_num [math.Underflow]
  have h0 : Sigmoid.F (math.Exp Real.exp) (Float64.num (-800) : Float64 (id : ℝ → ℝ))
      = Float64.num 0 := by
    apply (Logistic_of_Exp IsRounding_id Real.exp _ _).2.1
    apply Exp_num_of_overflow
    norm_num [math.Overflow]
  refine ⟨h, ?_, h0, ?_⟩
  · rw [h]
    intro hc
    have h1 : Float64.lt (Float64.num (1 : ℝ) : Float64 (id : ℝ → ℝ)) (Float64.num 1)
        = true := hc.2
    simp [Float64.lt] at h1
  · rw [h0]
    intro hc
    have h1 : Float64.lt (Float64.num (0 : ℝ) : Float64 (id : ℝ → ℝ)) (Float64.num 0)
        = true := hc.1
    simp [Float64.lt] at h1

/-- C9, amended: whatever the rounding of float64 arithmetic and whatever non-negative
numbers `math.Exp` returns inside its range, `Sigmoid.F x` is NaN only for `x` NaN, and for
every other float64 `x` it is a number `y` with `0 ≤ y ≤ 1`.  Both ends are reached: the
value is exactly `1` at `+Inf` and at every finite `x` with `-x` below `Underflow`, and
exactly `0` at `-Inf` and at every finite `x` with `-x` above `Overflow`. -/
theorem Sigmoid_F_mem_closed_unit_interval (rnd : ℝ → ℝ) (hr : IsRounding rnd)
    (exp : ℝ → ℝ) (he : ∀ v, 0 ≤ exp v) (x : Float64 rnd) :
    (Sigmoid.F (math.Exp exp) x = Float64.nan ↔ x = Float64.nan) ∧
    (x ≠ Float64.nan →
      ∃ y : ℝ, Sigmoid.F (math.Exp exp) x = Float64.num y ∧ 0 ≤ y ∧ y ≤ 1) ∧
    Sigmoid.F (math.Exp exp) (Float64.posInf : Float64 rnd) = Float64.num 1 ∧
    Sigmoid.F (math.Exp exp) (Float64.negInf : Float64 rnd) = Float64.num 0 ∧
    (∀ v : ℝ, rnd (-v) < math.Underflow →
      Sigmoid.F (math.Exp exp) (Float64.num v : Float64 rnd) = Float64.num 1) ∧
    (∀ v : ℝ, math.Overflow < rnd (-v) →
      Sigmoid.F (math.Exp exp) (Float64.num v : Float64 rnd) = Float64.num 0) := by
  have hL := Logistic_of_Exp hr exp x 1
  have hF : Sigmoid.F (math.Exp exp) x = Logistic (math.Exp exp) x 1 := rfl
  have harg : (-(1 : Float64 rnd) * x = Float64.nan) ↔ x = Float64.nan :=
    Float64_num_mul_eq_nan_iff (-1) (by norm_num) x
  have hnum : ∀ v : ℝ, (-(1 : Float64 rnd) * Float64.num v) = Float64.num (rnd (-v)) := by
    intro v
    show Float64.num (rnd (-1 * v)) = _
    rw [neg_one_mul]
  have hcases := Exp_cases exp he (-(1 : Float64 rnd) * x)
  refine ⟨?_, ?_, ?_, ?_, ?_, ?_⟩
  · constructor
    · intro hn
      rcases hcases with h | h | ⟨e, he0, h⟩
      · exact harg.mp ((Exp_eq_nan_iff exp _).mp h)
      · rw [hF, hL.2.1 h] at hn
        simp at hn
      · rw [hF, (hL.2.2 e he0 h).1] at hn
        simp at hn
    · intro hx
      rw [hF]
      exact hL.1 ((Exp_eq_nan_iff exp _).mpr (harg.mpr hx))
  · intro hx
    rcases hcases with h | h | ⟨e, he0, h⟩
    · exact absurd (harg.mp ((Exp_eq_nan_iff exp _).mp h)) hx
    · exact ⟨0, by rw [hF, hL.2.1 h], le_refl 0, zero_le_one⟩
    · exact ⟨_, by rw [hF, (hL.2.2 e he0 h).1], (hL.2.2 e he0 h).2⟩
  · apply Logistic_of_Exp_zero hr
    have h1 : (-(1 : Float64 rnd) * Float64.posInf) = Float64.negInf := by
      show Float64.infTimes (-1 : ℝ) = _
      norm_num [Float64.infTimes]
    rw [h1]
    rfl
  · apply (Logistic_of_Exp hr exp _ _).2.1
    have h1 : (-(1 : Float64 rnd) * Float64.negInf) = Float64.posInf := by
      show Float64.infTimes (-(-1) : ℝ) = _
      norm_num [Float64.infTimes]
    rw [h1]
    rfl
  · intro v hv
    apply Logistic_of_Exp_zero hr
    rw [hnum]
    exact Exp_num_of_underflow exp _ hv
  · intro v hv
    apply (Logistic_of_Exp hr exp _ _).2.1
    rw [hnum]
    exact Exp_num_of_overflow exp _ hv

/-- Witness for C9 (amended): exact arithmetic, the real exponential, the input `800`. -/
theorem Sigmoid_F_mem_closed_unit_interval_witness :
    IsRounding (id : ℝ → ℝ) ∧ (∀ v : ℝ, 0 ≤ Real.exp v) ∧
    ((Sigmoid.F (math.Exp Real.exp) (Float64.num 800 : Float64 (id : ℝ → ℝ)) = Float64.nan
        ↔ (Float64.num 800 : Float64 (id : ℝ → ℝ)) = Float64.nan) ∧
    ((Float64.num 800 : Float64 (id : ℝ → ℝ)) ≠ Float64.nan →
      ∃ y : ℝ, Sigmoid.F (math.Exp Real.exp) (Float64.num 800 : Float64 (id : ℝ → ℝ))
        = Float64.num y ∧ 0 ≤ y ∧ y ≤ 1) ∧
    Sigmoid.F (math.Exp Real.exp) (Float64.posInf : Float64 (id : ℝ → ℝ)) = Float64.num 1 ∧
    Sigmoid.F (math.Exp Real.exp) (Float64.negInf : Float64 (id : ℝ → ℝ)) = Float64.num 0 ∧
    (∀ v : ℝ, id (-v) < math.Underflow →
      Sigmoid.F (math.Exp Real.exp) (Float64.num v : Float64 (id : ℝ → ℝ))
        = Float64.num 1) ∧
    (∀ v : ℝ, math.Overflow < id (-v) →
      Sigmoid.F (math.Exp Real.exp) (Float64.num v : Float64 (id : ℝ → ℝ))
        = Float64.num 0)) :=
  ⟨IsRounding_id, fun v => (Real.exp_pos v).le,
    Sigmoid_F_mem_closed_unit_interval id IsRounding_id Real.exp
      (fun v => (Real.exp_pos v).le) (Float64.num 800)⟩

/-- C20, counterexample: at the float64 input `400` the code returns exactly `1`
(`math.Exp(-800)` underflows to `0`), so `Tanh.F 400 < 1` fails; at `-400`
(`math.Exp(800)` overflows to `+Inf`) it returns NaN while `2 * Logistic(-400, 2) - 1` is
`-1`.  No operation rounds at these inputs; the arithmetic is taken exact. -/
theorem Tanh_F_not_below_one_at_400 :
    Tanh.F (math.Exp Real.exp) (Float64.num 400 : Float64 (id : ℝ → ℝ)) = Float64.num 1 ∧
    ¬ (Tanh.F (math.Exp Real.exp) (Float64.num 400 : Float64 (id : ℝ → ℝ)) < 1) ∧
    Tanh.F (math.Exp Real.exp) (Float64.num (-400) : Float64 (id : ℝ → ℝ)) = Float64.nan ∧
    2 * Logistic (math.Exp Real.exp) (Float64.num (-400) : Float64 (id : ℝ → ℝ)) 2 - 1
      = Float64.num (-1) ∧
    Tanh.F (math.Exp Real.exp) (Float64.num (-400) : Float64 (id : ℝ → ℝ))
      ≠ 2 * Logistic (math.Exp Real.exp) (Float64.num (-400)) 2 - 1 := by
  have h : Tanh.F (math.Exp Real.exp) (Float64.num 400 : Float64 (id : ℝ → ℝ))
      = Float64.num 1 := by
    apply Tanh_F_of_Exp_zero IsRounding_id
    apply Exp_num_of_underflow
    norm_num [math.Underflow]
  have hn : Tanh.F (math.Exp Real.exp) (Float64.num (-400) : Float64 (id : ℝ → ℝ))
      = Float64.nan := by
    apply (Tanh_F_of_Exp IsRounding_id Real.exp _).2.1
    apply Exp_num_of_overflow
    norm_num [math.Overflow]
  have hl : Logistic (math.Exp Real.exp) (Float64.num (-400) : Float64 (id : ℝ → ℝ)) 2
      = Float64.num 0 := by
    apply (Logistic_of_Exp IsRounding_id Real.exp _ _).2.1
    apply Exp_num_of_overflow
    norm_num [math.Overflow]
  have hv : 2 * Logistic (math.Exp Real.exp) (Float64.num (-400) : Float64 (id : ℝ → ℝ)) 2
      - 1 = Float64.num (-1) := by
    rw [hl]
    show Float64.num (id (id (2 * 0) + -1) : ℝ) = _
    norm_num
  refine ⟨h, ?_, hn, hv, ?_⟩
  · rw [h]
    intro hc
    have h1 : Float64.lt (Float64.num (1 : ℝ) : Float64 (id : ℝ → ℝ)) (Float64.num 1)
        = true := hc
    simp [Float64.lt] at h1
  · rw [hn, hv]
    simp

/-- C20, amended: whatever the rounding of float64 arithmetic and whatever non-negative
numbers `math.Exp` returns inside its range, `2 * Logistic x 2 - 1` and
`2 * Sigmoid.F (2 * x) - 1` are the same float64, a number of `[-1, 1]` unless `x` is NaN;
`Tanh.F x`, when it is not NaN, is a number of `[-1, 1]`; where `math.Exp(-2x)` is `0` both
`Tanh.F x` and `2 * Logistic x 2 - 1` are exactly `1`; where `math.Exp(-2x)` is `+Inf`,
`Tanh.F x` is NaN and `2 * Logistic x 2 - 1` is `-1`. -/
theorem Tanh_F_rescaled_logistic_float64 (rnd : ℝ → ℝ) (hr : IsRounding rnd)
    (exp : ℝ → ℝ) (he : ∀ v, 0 ≤ exp v) (x : Float64 rnd) :
    2 * Logistic (math.Exp exp) x 2 - 1 = 2 * Sigmoid.F (math.Exp exp) (2 * x) - 1 ∧
    (x ≠ Float64.nan →
      ∃ z : ℝ, 2 * Logistic (math.Exp exp) x 2 - 1 = Float64.num z ∧ -1 ≤ z ∧ z ≤ 1) ∧
    (Tanh.F (math.Exp exp) x ≠ Float64.nan →
      ∃ y : ℝ, Tanh.F (math.Exp exp) x = Float64.num y ∧ -1 ≤ y ∧ y ≤ 1) ∧
    (math.Exp exp (-2 * x) = Float64.num 0 →
      Tanh.F (math.Exp exp) x = Float64.num 1 ∧
      2 * Logistic (math.Exp exp) x 2 - 1 = Float64.num 1) ∧
    (math.Exp exp (-2 * x) = Float64.posInf →
      Tanh.F (math.Exp exp) x = Float64.nan ∧
      2 * Logistic (math.Exp exp) x 2 - 1 = Float64.num (-1)) := by
  have hT := Tanh_F_of_Exp hr exp x
  have hL := Logistic_of_Exp hr exp x 2
  have hcases := Exp_cases exp he (-2 * x)
  have harg : (-(2 : Float64 rnd) * x = Float64.nan) ↔ x = Float64.nan :=
    Float64_num_mul_eq_nan_iff (-2) (by norm_num) x
  have hsig : Logistic (math.Exp exp) x 2 = Sigmoid.F (math.Exp exp) (2 * x) := by
    show (1 : Float64 rnd) / (1 + math.Exp exp (-(2 : Float64 rnd) * x))
      = 1 / (1 + math.Exp exp (-(1 : Float64 rnd) * ((2 : Float64 rnd) * x)))
    rw [Float64_neg_two_mul hr]
  refine ⟨by rw [hsig], ?_, ?_, ?_, ?_⟩
  · intro hx
    rcases hcases with h | h | ⟨e, he0, h⟩
    · exact absurd (harg.mp ((Exp_eq_nan_iff exp _).mp h)) hx
    · rw [hL.2.1 h]
      have hz := Float64_rescale_num hr 0 (le_refl 0) zero_le_one
      exact ⟨_, hz.1, hz.2⟩
    · obtain ⟨hl, hl0, hl1⟩ := hL.2.2 e he0 h
      rw [hl]
      have hz := Float64_rescale_num hr _ hl0 hl1
      exact ⟨_, hz.1, hz.2⟩
  · intro hne
    rcases hcases with h | h | ⟨e, he0, h⟩
    · exact absurd (hT.1 h) hne
    · exact absurd (hT.2.1 h) hne
    · exact ⟨_, (hT.2.2 e he0 h).1, (hT.2.2 e he0 h).2⟩
  · intro h
    refine ⟨Tanh_F_of_Exp_zero hr exp x h, ?_⟩
    rw [Logistic_of_Exp_zero hr exp x 2 h, (Float64_rescale_num hr 1 zero_le_one (le_refl 1)).1]
    congr 1
    rw [mul_one, hr.two]
    norm_num [hr.one]
  · intro h
    refine ⟨hT.2.1 h, ?_⟩
    rw [hL.2.1 h, (Float64_rescale_num hr 0 (le_refl 0) zero_le_one).1]
    congr 1
    rw [mul_zero, hr.zero, zero_sub, IsRounding_neg_one hr]

/-- Witness for C20 (amended): exact arithmetic, the real exponential, the input `400`. -/
theorem Tanh_F_rescaled_logistic_float64_witness :
    IsRounding (id : ℝ → ℝ) ∧ (∀ v : ℝ, 0 ≤ Real.exp v) ∧
    (2 * Logistic (math.Exp Real.exp) (Float64.num 400 : Float64 (id : ℝ → ℝ)) 2 - 1
      = 2 * Sigmoid.F (math.Exp Real.exp) (2 * Float64.num 400) - 1 ∧
    ((Float64.num 400 : Float64 (id : ℝ → ℝ)) ≠ Float64.nan →
      ∃ z : ℝ, 2 * Logistic (math.Exp Real.exp) (Float64.num 400 : Float64 (id : ℝ → ℝ)) 2
        - 1 = Float64.num z ∧ -1 ≤ z ∧ z ≤ 1) ∧
    (Tanh.F (math.Exp Real.exp) (Float64.num 400 : Float64 (id : ℝ → ℝ)) ≠ Float64.nan →
      ∃ y : ℝ, Tanh.F (math.Exp Real.exp) (Float64.num 400 : Float64 (id : ℝ → ℝ))
        = Float64.num y ∧ -1 ≤ y ∧ y ≤ 1) ∧
    (math.Exp Real.exp (-2 * (Float64.num 400 : Float64 (id : ℝ → ℝ))) = Float64.num 0 →
      Tanh.F (math.Exp Real.exp) (Float64.num 400 : Float64 (id : ℝ → ℝ)) = Float64.num 1 ∧
      2 * Logistic (math.Exp Real.exp) (Float64.num 400 : Float64 (id : ℝ → ℝ)) 2 - 1
        = Float64.num 1) ∧
    (math.Exp Real.exp (-2 * (Float64.num 400 : Float64 (id : ℝ → ℝ))) = Float64.posInf →
      Tanh.F (math.Exp Real.exp) (Float64.num 400 : Float64 (id : ℝ → ℝ)) = Float64.nan ∧
      2 * Logistic (math.Exp Real.exp) (Float64.num 400 : Float64 (id : ℝ → ℝ)) 2 - 1
        = Float64.num (-1))) :=
  ⟨IsRounding_id, fun v => (Real.exp_pos v).le,
    Tanh_F_rescaled_logistic_float64 id IsRounding_id Real.exp
      (fun v => (Real.exp_pos v).le) (Float64.num 400)⟩

/-- C7, counterexample: at the float64 input `-400`, `math.Exp(800)` overflows, the forward
output is NaN and so is `Tanh.Df` of it: it is not the derivative of the real `Tanh.F`.  At
`400`, `math.Exp(-800)` underflows, the output is `1` and `Tanh.Df` of it is `0`, while
the derivative of the real `Tanh.F` is not `0`.  No operation rounds at these inputs; the
arithmetic is taken exact. -/
theorem Tanh_Df_of_output_nan_at_neg_400 :
    Tanh.F (math.Exp Real.exp) (Float64.num (-400) : Float64 (id : ℝ → ℝ)) = Float64.nan ∧
    Tanh.Df (Tanh.F (math.Exp Real.exp) (Float64.num (-400) : Float64 (id : ℝ → ℝ)))
      = Float64.nan ∧
    Tanh.Df (Tanh.F (math.Exp Real.exp) (Float64.num (-400) : Float64 (id : ℝ → ℝ)))
      ≠ Float64.num (deriv (Tanh.F Real.exp) (-400)) ∧
    Tanh.Df (Tanh.F (math.Exp Real.exp) (Float64.num 400 : Float64 (id : ℝ → ℝ)))
      = Float64.num 0 ∧
    deriv (Tanh.F Real.exp) 400 ≠ 0 := by
  have hn : Tanh.F (math.Exp Real.exp) (Float64.num (-400) : Float64 (id : ℝ → ℝ))
      = Float64.nan := by
    apply (Tanh_F_of_Exp IsRounding_id Real.exp _).2.1
    apply Exp_num_of_overflow
    norm_num [math.Overflow]
  have hd : Tanh.Df (Tanh.F (math.Exp Real.exp) (Float64.num (-400) : Float64 (id : ℝ → ℝ)))
      = Float64.nan := by
    rw [hn]
    rfl
  have hp : Tanh.F (math.Exp Real.exp) (Float64.num 400 : Float64 (id : ℝ → ℝ))
      = Float64.num 1 := by
    apply Tanh_F_of_Exp_zero IsRounding_id
    apply Exp_num_of_underflow
    norm_num [math.Underflow]
  refine ⟨hn, hd, ?_, ?_, ?_⟩
  · rw [hd]
    simp
  · rw [hp, (Float64_Tanh_Df_num IsRounding_id 1 (by norm_num) (le_refl 1)).1]
    norm_num
  · rw [(Tanh_hasDerivAt_F 400).deriv]
    exact (Tanh_Df_real_pos 400).ne'

/-- C7, amended: whatever the rounding of float64 arithmetic and whatever non-negative
numbers `math.Exp` returns inside its range, at a finite float64 `x` whose float64 product
`-2*x` is not above `Overflow` the forward output `Tanh.F x` is a number `y` of `[-1, 1]`,
`Tanh.Df` of it is the number `1 - y^2` (both operations rounded), which lies in `[0, 1]`,
and the real function `Tanh.F` has the derivative `Tanh.Df (Tanh.F x) = 1 - (Tanh.F x)^2`
at `x`; where the float64 product `-2*x` is above `Overflow`, the forward output and
`Tanh.Df` of it are NaN. -/
theorem Tanh_Df_of_output_is_derivative_in_range (rnd : ℝ → ℝ) (hr : IsRounding rnd)
    (exp : ℝ → ℝ) (he : ∀ v, 0 ≤ exp v) (x : ℝ) :
    (rnd (-2 * x) ≤ math.Overflow →
      (∃ y : ℝ, Tanh.F (math.Exp exp) (Float64.num x : Float64 rnd) = Float64.num y ∧
        -1 ≤ y ∧ y ≤ 1 ∧
        Tanh.Df (Tanh.F (math.Exp exp) (Float64.num x : Float64 rnd))
          = Float64.num (rnd (1 - rnd (y * y))) ∧
        0 ≤ rnd (1 - rnd (y * y)) ∧ rnd (1 - rnd (y * y)) ≤ 1) ∧
      HasDerivAt (Tanh.F Real.exp) (Tanh.Df (Tanh.F Real.exp x)) x ∧
      deriv (Tanh.F Real.exp) x = 1 - (Tanh.F Real.exp x) ^ 2) ∧
    (math.Overflow < rnd (-2 * x) →
      Tanh.F (math.Exp exp) (Float64.num x : Float64 rnd) = Float64.nan ∧
      Tanh.Df (Tanh.F (math.Exp exp) (Float64.num x : Float64 rnd)) = Float64.nan) := by
  constructor
  · intro h
    obtain ⟨y, hy, h1, h2⟩ := Tanh_F_num_of_le hr exp he x h
    have hD := Float64_Tanh_Df_num hr y h1 h2
    refine ⟨⟨y, hy, h1, h2, ?_, hD.2⟩, Tanh_hasDerivAt_F x, (Tanh_hasDerivAt_F x).deriv⟩
    rw [hy]
    exact hD.1
  · intro h
    have hn := (Tanh_F_num_eq_nan_iff hr exp he x).mpr h
    refine ⟨hn, ?_⟩
    rw [hn]
    rfl

/-- Witness for C7 (amended): exact arithmetic, the real exponential, the input `1`. -/
theorem Tanh_Df_of_output_is_derivative_in_range_witness :
    IsRounding (id : ℝ → ℝ) ∧ (∀ v : ℝ, 0 ≤ Real.exp v) ∧
    ((id (-2 * 1 : ℝ) ≤ math.Overflow →
      (∃ y : ℝ, Tanh.F (math.Exp Real.exp) (Float64.num 1 : Float64 (id : ℝ → ℝ))
          = Float64.num y ∧
        -1 ≤ y ∧ y ≤ 1 ∧
        Tanh.Df (Tanh.F (math.Exp Real.exp) (Float64.num 1 : Float64 (id : ℝ → ℝ)))
          = Float64.num (id (1 - id (y * y))) ∧
        0 ≤ id (1 - id (y * y)) ∧ id (1 - id (y * y)) ≤ 1) ∧
      HasDerivAt (Tanh.F Real.exp) (Tanh.Df (Tanh.F Real.exp 1)) 1 ∧
      deriv (Tanh.F Real.exp) 1 = 1 - (Tanh.F Real.exp 1) ^ 2) ∧
    (math.Overflow < id (-2 * 1 : ℝ) →
      Tanh.F (math.Exp Real.exp) (Float64.num 1 : Float64 (id : ℝ → ℝ)) = Float64.nan ∧
      Tanh.Df (Tanh.F (math.Exp Real.exp) (Float64.num 1 : Float64 (id : ℝ → ℝ)))
        = Float64.nan)) :=
  ⟨IsRounding_id, fun v => (Real.exp_pos v).le,
    Tanh_Df_of_output_is_derivative_in_range id IsRounding_id Real.exp
      (fun v => (Real.exp_pos v).le) 1⟩

/-- C8, counterexample: at the float64 input `-400`, `math.Exp(800)` overflows to `+Inf`
and the code returns NaN (`-Inf / +Inf`), not `tanh (-400)`.  No operation rounds at this
input; the arithmetic is taken exact. -/
theorem Tanh_F_ne_tanh_at_neg_400 :
    Tanh.F (math.Exp Real.exp) (Float64.num (-400) : Float64 (id : ℝ → ℝ)) = Float64.nan ∧
    Tanh.F (math.Exp Real.exp) (Float64.num (-400) : Float64 (id : ℝ → ℝ))
      ≠ Float64.num (Real.tanh (-400)) := by
  have hn : Tanh.F (math.Exp Real.exp) (Float64.num (-400) : Float64 (id : ℝ → ℝ))
      = Float64.nan := by
    apply (Tanh_F_of_Exp IsRounding_id Real.exp _).2.1
    apply Exp_num_of_overflow
    norm_num [math.Overflow]
  refine ⟨hn, ?_⟩
  rw [hn]
  simp

/-- C8, amended: whatever the rounding of float64 arithmetic and whatever non-negative
numbers `math.Exp` returns inside its range, the denominator `1 + math.Exp(-2x)` is never
zero; `Tanh.F x` is NaN exactly when `x` is NaN or `math.Exp(-2x)` is `+Inf`, and is
otherwise a number of `[-1, 1]`; at a finite `v` it is NaN exactly when the float64 product
`-2*v` is above `Overflow`, and there it is not `tanh v`. -/
theorem Tanh_F_nan_iff_Exp_overflow (rnd : ℝ → ℝ) (hr : IsRounding rnd)
    (exp : ℝ → ℝ) (he : ∀ v, 0 ≤ exp v) (x : Float64 rnd) :
    (1 : Float64 rnd) + math.Exp exp (-2 * x) ≠ 0 ∧
    (Tanh.F (math.Exp exp) x = Float64.nan ↔
      (x = Float64.nan ∨ math.Exp exp (-2 * x) = Float64.posInf)) ∧
    (Tanh.F (math.Exp exp) x ≠ Float64.nan →
      ∃ y : ℝ, Tanh.F (math.Exp exp) x = Float64.num y ∧ -1 ≤ y ∧ y ≤ 1) ∧
    (∀ v : ℝ, Tanh.F (math.Exp exp) (Float64.num v : Float64 rnd) = Float64.nan
      ↔ math.Overflow < rnd (-2 * v)) ∧
    (∀ v : ℝ, math.Overflow < rnd (-2 * v) →
      Tanh.F (math.Exp exp) (Float64.num v : Float64 rnd) ≠ Float64.num (Real.tanh v)) := by
  have hT := Tanh_F_of_Exp hr exp x
  have hcases := Exp_cases exp he (-2 * x)
  have harg : (-(2 : Float64 rnd) * x = Float64.nan) ↔ x = Float64.nan :=
    Float64_num_mul_eq_nan_iff (-2) (by norm_num) x
  refine ⟨?_, ?_, ?_, ?_, ?_⟩
  · have hz : ∀ w : Float64 rnd, w ≠ Float64.num 0 → w ≠ (0 : Float64 rnd) := fun w hw => hw
    apply hz
    rcases hcases with h | h | ⟨e, he0, h⟩
    · rw [h]
      show (Float64.nan : Float64 rnd) ≠ _
      simp
    · rw [h]
      show (Float64.posInf : Float64 rnd) ≠ _
      simp
    · rw [h]
      show (Float64.num (rnd (1 + e)) : Float64 rnd) ≠ _
      have hd : 1 ≤ rnd (1 + e) := by
        have := hr.mono 1 (1 + e) (by linarith)
        rwa [hr.one] at this
      intro hc
      have := Float64.num.inj hc
      linarith
  · constructor
    · intro hn
      rcases hcases with h | h | ⟨e, he0, h⟩
      · exact Or.inl (harg.mp ((Exp_eq_nan_iff exp _).mp h))
      · exact Or.inr h
      · rw [(hT.2.2 e he0 h).1] at hn
        simp at hn
    · rintro (hx | h)
      · exact hT.1 ((Exp_eq_nan_iff exp _).mpr (harg.mpr hx))
      · exact hT.2.1 h
  · intro hne
    rcases hcases with h | h | ⟨e, he0, h⟩
    · exact absurd (hT.1 h) hne
    · exact absurd (hT.2.1 h) hne
    · exact ⟨_, (hT.2.2 e he0 h).1, (hT.2.2 e he0 h).2⟩
  · exact fun v => Tanh_F_num_eq_nan_iff hr exp he v
  · intro v hv
    rw [(Tanh_F_num_eq_nan_iff hr exp he v).mpr hv]
    simp

/-- Witness for C8 (amended): exact arithmetic, the real exponential, the input `-400`. -/
theorem Tanh_F_nan_iff_Exp_overflow_witness :
    IsRounding (id : ℝ → ℝ) ∧ (∀ v : ℝ, 0 ≤ Real.exp v) ∧
    ((1 : Float64 (id : ℝ → ℝ)) + math.Exp Real.exp (-2 * Float64.num (-400)) ≠ 0 ∧
    (Tanh.F (math.Exp Real.exp) (Float64.num (-400) : Float64 (id : ℝ → ℝ)) = Float64.nan ↔
      ((Float64.num (-400) : Float64 (id : ℝ → ℝ)) = Float64.nan ∨
        math.Exp Real.exp (-2 * (Float64.num (-400) : Float64 (id : ℝ → ℝ)))
          = Float64.posInf)) ∧
    (Tanh.F (math.Exp Real.exp) (Float64.num (-400) : Float64 (id : ℝ → ℝ)) ≠ Float64.nan →
      ∃ y : ℝ, Tanh.F (math.Exp Real.exp) (Float64.num (-400) : Float64 (id : ℝ → ℝ))
        = Float64.num y ∧ -1 ≤ y ∧ y ≤ 1) ∧
    (∀ v : ℝ, Tanh.F (math.Exp Real.exp) (Float64.num v : Float64 (id : ℝ → ℝ))
      = Float64.nan ↔ math.Overflow < id (-2 * v)) ∧
    (∀ v : ℝ, math.Overflow < id (-2 * v) →
      Tanh.F (math.Exp Real.exp) (Float64.num v : Float64 (id : ℝ → ℝ))
        ≠ Float64.num (Real.tanh v))) :=
  ⟨IsRounding_id, fun v => (Real.exp_pos v).le,
    Tanh_F_nan_iff_Exp_overflow id IsRounding_id Real.exp
      (fun v => (Real.exp_pos v).le) (Float64.num (-400))⟩

/-- C13, counterexample: at the float64 input `400`, `Tanh.F (-400)` is NaN
(`math.Exp(800)` overflows) while `-Tanh.F 400` is `-1`: the code is not odd there.  No
operation rounds at these inputs; the arithmetic is taken exact. -/
theorem Tanh_F_not_odd_at_400 :
    Tanh.F (math.Exp Real.exp) (-(Float64.num 400 : Float64 (id : ℝ → ℝ))) = Float64.nan ∧
    -(Tanh.F (math.Exp Real.exp) (Float64.num 400 : Float64 (id : ℝ → ℝ)))
      = Float64.num (-1) ∧
    Tanh.F (math.Exp Real.exp) (-(Float64.num 400 : Float64 (id : ℝ → ℝ)))
      ≠ -(Tanh.F (math.Exp Real.exp) (Float64.num 400)) := by
  have hn : Tanh.F (math.Exp Real.exp) (-(Float64.num 400 : Float64 (id : ℝ → ℝ)))
      = Float64.nan := by
    apply (Tanh_F_of_Exp IsRounding_id Real.exp _).2.1
    apply Exp_num_of_overflow
    norm_num [math.Overflow]
  have hp : -(Tanh.F (math.Exp Real.exp) (Float64.num 400 : Float64 (id : ℝ → ℝ)))
      = Float64.num (-1) := by
    have h1 : Tanh.F (math.Exp Real.exp) (Float64.num 400 : Float64 (id : ℝ → ℝ))
        = Float64.num 1 := by
      apply Tanh_F_of_Exp_zero IsRounding_id
      apply Exp_num_of_underflow
      norm_num [math.Underflow]
    rw [h1]
    rfl
  refine ⟨hn, hp, ?_⟩
  rw [hn, hp]
  simp

/-- C13, amended: whatever the rounding of float64 arithmetic and whatever non-negative
numbers `math.Exp` returns inside its range, with `math.Exp(0) = 1`: `Tanh.F 0 = 0`; at a
finite `x` whose float64 product `2*x` lies between `-Overflow` and `Overflow`, `Tanh.F x`
and `Tanh.F (-x)` are both numbers of `[-1, 1]`; at a finite `x` whose float64 product
`2*x` is above `Overflow`, `Tanh.F (-x)` is NaN while `Tanh.F x` is a number, so
`Tanh.F (-x)` is not `-Tanh.F x`. -/
theorem Tanh_F_zero_and_opposite_inputs (rnd : ℝ → ℝ) (hr : IsRounding rnd)
    (exp : ℝ → ℝ) (he : ∀ v, 0 ≤ exp v) (h0 : exp 0 = 1) (x : ℝ) :
    Tanh.F (math.Exp exp) (0 : Float64 rnd) = 0 ∧
    (-math.Overflow ≤ rnd (2 * x) → rnd (2 * x) ≤ math.Overflow →
      ∃ y y' : ℝ, Tanh.F (math.Exp exp) (Float64.num x : Float64 rnd) = Float64.num y ∧
        Tanh.F (math.Exp exp) (-(Float64.num x : Float64 rnd)) = Float64.num y' ∧
        -1 ≤ y ∧ y ≤ 1 ∧ -1 ≤ y' ∧ y' ≤ 1) ∧
    (math.Overflow < rnd (2 * x) →
      Tanh.F (math.Exp exp) (-(Float64.num x : Float64 rnd)) = Float64.nan ∧
      (∃ y : ℝ, Tanh.F (math.Exp exp) (Float64.num x : Float64 rnd) = Float64.num y ∧
        -1 ≤ y ∧ y ≤ 1) ∧
      Tanh.F (math.Exp exp) (-(Float64.num x : Float64 rnd))
        ≠ -(Tanh.F (math.Exp exp) (Float64.num x : Float64 rnd))) := by
  have hO := Underflow_lt_Overflow
  have hneg : (-(Float64.num x : Float64 rnd)) = Float64.num (-x) := rfl
  have hpos : rnd (-2 * x) = -rnd (2 * x) := by
    rw [← hr.neg]
    congr 1
    ring
  have hmin : rnd (-2 * -x) = rnd (2 * x) := by
    congr 1
    ring
  refine ⟨?_, ?_, ?_⟩
  · have hE : math.Exp exp (-2 * (0 : Float64 rnd)) = Float64.num 1 := by
      show math.Exp exp (Float64.num (rnd (-2 * 0)) : Float64 rnd) = _
      rw [mul_zero, hr.zero, Exp_num_of_mem exp 0 (by linarith) (by linarith), h0]
    rw [((Tanh_F_of_Exp hr exp 0).2.2 1 zero_le_one hE).1]
    show Float64.num _ = Float64.num 0
    congr 1
    rw [sub_self, hr.zero, zero_div, hr.zero]
  · intro h1 h2
    obtain ⟨y, hy, hy1, hy2⟩ := Tanh_F_num_of_le hr exp he x (by rw [hpos]; linarith)
    obtain ⟨y', hy', hy1', hy2'⟩ := Tanh_F_num_of_le hr exp he (-x) (by rw [hmin]; exact h2)
    exact ⟨y, y', hy, by rw [hneg]; exact hy', hy1, hy2, hy1', hy2'⟩
  · intro h
    have hn : Tanh.F (math.Exp exp) (-(Float64.num x : Float64 rnd)) = Float64.nan := by
      rw [hneg]
      exact (Tanh_F_num_eq_nan_iff hr exp he (-x)).mpr (by rw [hmin]; exact h)
    obtain ⟨y, hy, hy1, hy2⟩ := Tanh_F_num_of_le hr exp he x (by rw [hpos]; linarith)
    refine ⟨hn, ⟨y, hy, hy1, hy2⟩, ?_⟩
    rw [hn, hy]
    show (Float64.nan : Float64 rnd) ≠ Float64.num (-y)
    simp

/-- Witness for C13 (amended): exact arithmetic, the real exponential, the input `400`. -/
theorem Tanh_F_zero_and_opposite_inputs_witness :
    IsRounding (id : ℝ → ℝ) ∧ (∀ v : ℝ, 0 ≤ Real.exp v) ∧ Real.exp 0 = 1 ∧
    (Tanh.F (math.Exp Real.exp) (0 : Float64 (id : ℝ → ℝ)) = 0 ∧
    (-math.Overflow ≤ id (2 * 400 : ℝ) → id (2 * 400 : ℝ) ≤ math.Overflow →
      ∃ y y' : ℝ, Tanh.F (math.Exp Real.exp) (Float64.num 400 : Float64 (id : ℝ → ℝ))
          = Float64.num y ∧
        Tanh.F (math.Exp Real.exp) (-(Float64.num 400 : Float64 (id : ℝ → ℝ)))
          = Float64.num y' ∧
        -1 ≤ y ∧ y ≤ 1 ∧ -1 ≤ y' ∧ y' ≤ 1) ∧
    (math.Overflow < id (2 * 400 : ℝ) →
      Tanh.F (math.Exp Real.exp) (-(Float64.num 400 : Float64 (id : ℝ → ℝ))) = Float64.nan ∧
      (∃ y : ℝ, Tanh.F (math.Exp Real.exp) (Float64.num 400 : Float64 (id : ℝ → ℝ))
        = Float64.num y ∧ -1 ≤ y ∧ y ≤ 1) ∧
      Tanh.F (math.Exp Real.exp) (-(Float64.num 400 : Float64 (id : ℝ → ℝ)))
        ≠ -(Tanh.F (math.Exp Real.exp) (Float64.num 400 : Float64 (id : ℝ → ℝ))))) :=
  ⟨IsRounding_id, fun v => (Real.exp_pos v).le, Real.exp_zero,
    Tanh_F_zero_and_opposite_inputs id IsRounding_id Real.exp
      (fun v => (Real.exp_pos v).le) Real.exp_zero 400⟩

end deep
